import Mathlib

/-!
Shallow embedding of `src/prompts/multi_select.rs` (dialoguer `MultiSelect`).

Strings are modelled as `List Char`; `str::to_lowercase` is modelled
per-character by `Char.toLower`, and `str::contains` by an explicit
substring search.  `usize` values are modelled as `Nat`; the only place
the machine width matters is the `sel == !0` guard in the arrow-key
handlers, modelled against `usizeMax = 2 ^ 64 - 1`.  A Rust panic
(index out of bounds, `%`/`rem` by zero) is modelled as an explicit
`panicked` outcome.  The `f64` ceiling in the page-count computation is
modelled by exact natural ceiling division, which agrees with the source
for any item count and capacity below `2 ^ 52`.
-/

namespace Dialoguer

/-- Model of `usize::MAX` (`!0` in the source). -/
def usizeMax : Nat := 2 ^ 64 - 1

/-- Model of `str::to_lowercase`, applied per character. -/
def lowerStr (s : List Char) : List Char := s.map Char.toLower

/-- Whether `p` is a leading segment of `l`
(the inner step of the substring search). -/
def startsWith : List Char → List Char → Bool
  | _, [] => true
  | [], _ :: _ => false
  | a :: as, b :: bs => a == b && startsWith as bs

/-- Model of `str::contains`: whether `pat` occurs contiguously in `hay`. -/
def containsSub : List Char → List Char → Bool
  | [], pat => pat.isEmpty
  | h :: t, pat => startsWith (h :: t) pat || containsSub t pat

/-- The filter predicate of the interaction loop:
`search_string.len() == 0 || item.to_lowercase().contains(&search_string.to_lowercase())`. -/
def matchesFilter (search label : List Char) : Bool :=
  search.length == 0 || containsSub (lowerStr label) (lowerStr search)

/-- The filtered view rebuilt each frame:
`original_items.iter().enumerate().filter(..).map(|(idx, item)| (item, idx))`. -/
def filteredIndexedItems (items : List (List Char)) (search : List Char) :
    List (List Char × Nat) :=
  (items.enum.filter (fun p => matchesFilter search p.2)).map (fun p => (p.2, p.1))

/-- `checked.into_iter().enumerate().filter_map(|(idx, c)| if c { Some(idx) } else { None })`:
the indices at which a boolean vector holds `true`, used by both the
`Enter` and the `Escape` return paths. -/
def checkedIndices (c : List Bool) : List Nat :=
  c.enum.filterMap (fun p => if p.2 then some p.1 else none)

/-- The configuration record built by the `MultiSelect` builder methods. -/
structure Config where
  defaults : List Bool
  items : List (List Char)
  prompt : Option (List Char)
  clear : Bool
  paged : Bool
  pageSize : Nat
deriving DecidableEq, Repr

/-- `MultiSelect::new()` / `with_theme`: empty items and defaults,
`clear = true`, no prompt, paging off, page size 10. -/
def newConfig : Config :=
  { defaults := [], items := [], prompt := none, clear := true,
    paged := false, pageSize := 10 }

/-- `val.to_vec().iter().cloned().chain(repeat(false)).take(n)`:
take `n` flags from `val` extended by an infinite stream of `false`. -/
def padTake : List Bool → Nat → List Bool
  | _, 0 => []
  | [], n + 1 => false :: padTake [] n
  | b :: bs, n + 1 => b :: padTake bs n

/-- One builder method call. -/
inductive BuildOp where
  | paged (v : Bool)
  | pageSize (v : Nat)
  | clear (v : Bool)
  | defaults (val : List Bool)
  | item (label : List Char)
  | itemChecked (label : List Char) (c : Bool)
  | items (labels : List (List Char))
  | itemsChecked (ps : List (List Char × Bool))
  | withPrompt (p : List Char)
deriving DecidableEq, Repr

/-- Semantics of one builder method call on the configuration. -/
def applyOp (cfg : Config) : BuildOp → Config
  | .paged v => { cfg with paged := v }
  | .pageSize v => { cfg with pageSize := if v = 0 then 10 else v }
  | .clear v => { cfg with clear := v }
  | .defaults val => { cfg with defaults := padTake val cfg.items.length }
  | .item label =>
      { cfg with items := cfg.items ++ [label], defaults := cfg.defaults ++ [false] }
  | .itemChecked label c =>
      { cfg with items := cfg.items ++ [label], defaults := cfg.defaults ++ [c] }
  | .items labels =>
      { cfg with items := cfg.items ++ labels,
                 defaults := cfg.defaults ++ List.replicate labels.length false }
  | .itemsChecked ps =>
      { cfg with items := cfg.items ++ ps.map Prod.fst,
                 defaults := cfg.defaults ++ ps.map Prod.snd }
  | .withPrompt p => { cfg with prompt := some p }

/-- A configuration built by a sequence of builder method calls. -/
def buildConfig (ops : List BuildOp) : Config := ops.foldl applyOp newConfig

/-- The `capacity` local of `interact_on`: page size when paging is on
(with the defensive `page_size > 0` re-check), else the item count. -/
def capacityOf (cfg : Config) : Nat :=
  if cfg.paged then (if 0 < cfg.pageSize then cfg.pageSize else 10)
  else cfg.items.length

/-- Exact natural ceiling division, modelling
`(len as f64 / capacity as f64).ceil() as usize`. -/
def ceilNat (a b : Nat) : Nat := (a + b - 1) / b

/-- The `pages` local of `interact_on`: computed once, before the loop,
from the full `self.items.len()`. -/
def pagesOf (cfg : Config) : Nat := ceilNat cfg.items.length (capacityOf cfg)

/-- The mutable locals of the interaction loop:
`page`, `sel`, `checked`, `search_string`. -/
structure LoopState where
  page : Nat
  sel : Nat
  checked : List Bool
  search : List Char
deriving DecidableEq, Repr

/-- The loop state on entry:
`page = 0`, `sel = 0`, `checked = self.defaults.clone()`, empty search. -/
def initState (cfg : Config) : LoopState :=
  { page := 0, sel := 0, checked := cfg.defaults, search := [] }

/-- The key events consumed by the loop (`console::Key`); every variant
the `match` ignores is collapsed into `other`. -/
inductive Key where
  | arrowDown
  | arrowUp
  | arrowLeft
  | arrowRight
  | char (c : Char)
  | escape
  | enter
  | backspace
  | other
deriving DecidableEq, Repr

/-- Result of handling one key event. -/
inductive StepResult where
  | next (s : LoopState)
  | done (result : List Nat)
  | panicked
deriving DecidableEq, Repr

/-- The page fix-up at the bottom of the loop body:
`if sel < page * capacity || sel >= (page + 1) * capacity { page = sel / capacity }`. -/
def adjustPage (cfg : Config) (s : LoopState) : LoopState :=
  if s.sel < s.page * capacityOf cfg ∨ (s.page + 1) * capacityOf cfg ≤ s.sel then
    { s with page := s.sel / capacityOf cfg }
  else s

/-- One iteration of the `match term.read_key()?` body, followed by the
page fix-up.  Out-of-bounds indexing and `%`-by-zero are `panicked`.
In the `sel == !0` arm of `ArrowUp` the source computes
`filtered_items.len() - 1` in `usize`; that arm is unreachable from the
initial state, and the subtraction is modelled by truncated `Nat`
subtraction. -/
def step (cfg : Config) (s : LoopState) (k : Key) : StepResult :=
  let fii := filteredIndexedItems cfg.items s.search
  match k with
  | .arrowDown =>
      if s.sel = usizeMax then
        .next (adjustPage cfg { s with sel := 0 })
      else if fii.length = 0 then
        .panicked
      else
        .next (adjustPage cfg { s with sel := (s.sel + 1) % fii.length })
  | .arrowUp =>
      if s.sel = usizeMax then
        .next (adjustPage cfg { s with sel := fii.length - 1 })
      else if fii.length = 0 then
        .panicked
      else
        .next (adjustPage cfg { s with sel := (s.sel + fii.length - 1) % fii.length })
  | .arrowLeft =>
      if cfg.paged then
        let page1 := if s.page = 0 then pagesOf cfg - 1 else s.page - 1
        .next (adjustPage cfg { s with page := page1, sel := page1 * capacityOf cfg })
      else
        .next (adjustPage cfg s)
  | .arrowRight =>
      if cfg.paged then
        let page1 := if s.page = pagesOf cfg - 1 then 0 else s.page + 1
        .next (adjustPage cfg { s with page := page1, sel := page1 * capacityOf cfg })
      else
        .next (adjustPage cfg s)
  | .char c =>
      if c = ' ' then
        match fii[s.sel]? with
        | none => .panicked
        | some p =>
            if p.2 < s.checked.length then
              .next (adjustPage cfg
                { s with checked := s.checked.set p.2 (!(s.checked.getD p.2 false)) })
            else
              .panicked
      else
        .next (adjustPage cfg { s with search := s.search ++ [c] })
  | .escape => .done (checkedIndices cfg.defaults)
  | .enter => .done (checkedIndices s.checked)
  | .backspace =>
      if 0 < s.search.length then
        .next (adjustPage cfg { s with search := s.search.dropLast })
      else
        .next (adjustPage cfg s)
  | .other => .next (adjustPage cfg s)

/-- Render calls observable through the `Renderer`/`Terminal` interfaces. -/
inductive RenderEvent where
  | clear
  | promptLine (text : List Char)
  | itemRow (label : List Char) (checked : Bool) (isCursor : Bool)
  | summary (prompt : List Char) (labels : List (List Char))
  | clearPreserve
deriving DecidableEq, Repr

/-- The rendering at the top of each frame: clear, the prompt line
`format!("{} {}", prompt_string, search_string)`, then one row per
visible item of the active page window.  The source reads
`checked[orig_idx]` directly; the builder invariant keeps `orig_idx` in
range, so the read is modelled by `getD`. -/
def renderFrame (cfg : Config) (s : LoopState) : List RenderEvent :=
  let fii := filteredIndexedItems cfg.items s.search
  RenderEvent.clear ::
  RenderEvent.promptLine ((cfg.prompt.getD []) ++ ' ' :: s.search) ::
  ((fii.enum.drop (s.page * capacityOf cfg)).take (capacityOf cfg)).map
    (fun p => RenderEvent.itemRow p.2.1 (s.checked.getD p.2.2 false) (s.sel == p.1))

/-- The labels of the checked items, rendered in the `Enter` summary:
`checked.iter().enumerate().filter_map(|(idx, &c)| if c { Some(self.items[idx]) } else { None })`. -/
def selectedLabels (items : List (List Char)) (checked : List Bool) : List (List Char) :=
  checked.enum.filterMap (fun p => if p.2 then some (items.getD p.1 []) else none)

/-- The rendering on an exit path: clear when `self.clear`, then the
selection summary when a prompt was configured. -/
def finalEvents (cfg : Config) (labels : List (List Char)) : List RenderEvent :=
  (if cfg.clear then [RenderEvent.clear] else []) ++
  (match cfg.prompt with
   | some p => [RenderEvent.summary p labels]
   | none => [])

/-- Outcome of running the loop against a finite key script. -/
inductive Outcome where
  | emptyErr
  | ok (result : List Nat)
  | panicked
  | pending (s : LoopState)
deriving DecidableEq, Repr

/-- The interaction loop driven by a finite key script: each iteration
renders the frame, consumes one key, and either continues, returns, or
panics.  An exhausted script leaves the loop blocked in `read_key`
(`pending`). -/
def runFrames (cfg : Config) : LoopState → List Key → Outcome × List RenderEvent
  | s, [] => (Outcome.pending s, renderFrame cfg s)
  | s, k :: ks =>
      match step cfg s k with
      | StepResult.next s1 =>
          let r := runFrames cfg s1 ks
          (r.1, renderFrame cfg s ++ RenderEvent.clearPreserve :: r.2)
      | StepResult.done result =>
          (Outcome.ok result,
           renderFrame cfg s ++
             finalEvents cfg
               (if k = Key.enter then selectedLabels cfg.items s.checked else []))
      | StepResult.panicked => (Outcome.panicked, renderFrame cfg s)

/-- `interact_on`: the empty-items check precedes every render and
terminal call; otherwise the loop starts from the initial state. -/
def interactOn (cfg : Config) (keys : List Key) : Outcome × List RenderEvent :=
  if cfg.items.isEmpty then (Outcome.emptyErr, [])
  else runFrames cfg (initState cfg) keys

/-- Run a key script through `step`, stopping at any exit or panic. -/
def stepMany (cfg : Config) : LoopState → List Key → Option LoopState
  | s, [] => some s
  | s, k :: ks =>
      match step cfg s k with
      | StepResult.next s1 => stepMany cfg s1 ks
      | _ => none

/-- The loop states reachable from the initial state of a configuration. -/
inductive Reaches (cfg : Config) : LoopState → Prop where
  | init : Reaches cfg (initState cfg)
  | next {s s1 : LoopState} {k : Key} :
      Reaches cfg s → step cfg s k = StepResult.next s1 → Reaches cfg s1

/-! Concrete configurations used as witnesses and counterexamples. -/

/-- One unchecked item `"a"`; paging off. -/
def cfgSingle : Config :=
  { defaults := [false], items := [['a']], prompt := none, clear := true,
    paged := false, pageSize := 10 }

/-- Five items, the first labelled `"ax"`, paging on with page size 2. -/
def cfgPaged : Config :=
  { defaults := List.replicate 5 false,
    items := [['a','x'], ['b'], ['c'], ['d'], ['e']], prompt := none,
    clear := true, paged := true, pageSize := 2 }

/-- Three items `"a" "b" "c"` with only item 1 checked by default. -/
def cfgDefaults3 : Config :=
  { defaults := [false, true, false], items := [['a'], ['b'], ['c']],
    prompt := none, clear := true, paged := false, pageSize := 10 }

/-- No items configured. -/
def cfgEmpty : Config :=
  { defaults := [], items := [], prompt := none, clear := true,
    paged := false, pageSize := 10 }

/-- The state reached from `initState cfgPaged` by typing `x`. -/
def statePagedX : LoopState :=
  { page := 0, sel := 0, checked := List.replicate 5 false, search := ['x'] }

/-- Builder script: one item added already checked. -/
def opsChecked1 : List BuildOp := [BuildOp.itemChecked ['a'] true]

/-- Builder script: two items added unchecked. -/
def opsTwo : List BuildOp := [BuildOp.items [['a'], ['b']]]

/-! Helper lemmas. -/

theorem adjustPage_sel (cfg : Config) (s : LoopState) :
    (adjustPage cfg s).sel = s.sel := by
  unfold adjustPage; split <;> rfl

theorem adjustPage_checked (cfg : Config) (s : LoopState) :
    (adjustPage cfg s).checked = s.checked := by
  unfold adjustPage; split <;> rfl

theorem adjustPage_search (cfg : Config) (s : LoopState) :
    (adjustPage cfg s).search = s.search := by
  unfold adjustPage; split <;> rfl

theorem adjustPage_in_window (cfg : Config) (s : LoopState)
    (hlo : s.page * capacityOf cfg ≤ s.sel)
    (hhi : s.sel < (s.page + 1) * capacityOf cfg) :
    adjustPage cfg s = s := by
  unfold adjustPage
  rw [if_neg]
  omega

theorem padTake_length (val : List Bool) (n : Nat) : (padTake val n).length = n := by
  induction n generalizing val with
  | zero => cases val <;> rfl
  | succ n ih => cases val <;> simp [padTake, ih]

theorem padTake_eq (val : List Bool) (n : Nat) :
    padTake val n = val.take n ++ List.replicate (n - val.length) false := by
  induction n generalizing val with
  | zero => cases val <;> simp [padTake]
  | succ n ih =>
    cases val with
    | nil =>
      simp [padTake, ih, List.replicate_succ]
    | cons b bs =>
      simp [padTake, ih bs, Nat.succ_sub_succ]

theorem applyOp_defaults_length (cfg : Config) (op : BuildOp)
    (h : cfg.defaults.length = cfg.items.length) :
    (applyOp cfg op).defaults.length = (applyOp cfg op).items.length := by
  cases op <;> simp [applyOp, h, padTake_length]

theorem foldl_applyOp_defaults_length (ops : List BuildOp) (cfg : Config)
    (h : cfg.defaults.length = cfg.items.length) :
    (ops.foldl applyOp cfg).defaults.length = (ops.foldl applyOp cfg).items.length := by
  induction ops generalizing cfg with
  | nil => exact h
  | cons op ops ih => exact ih _ (applyOp_defaults_length cfg op h)

theorem buildConfig_defaults_length (ops : List BuildOp) :
    (buildConfig ops).defaults.length = (buildConfig ops).items.length :=
  foldl_applyOp_defaults_length ops newConfig rfl

theorem step_next_checked_length {cfg : Config} {s s1 : LoopState} {k : Key}
    (h : step cfg s k = StepResult.next s1) :
    s1.checked.length = s.checked.length := by
  have hlen : ∀ t : LoopState, t.checked.length = s.checked.length →
      (adjustPage cfg t).checked.length = s.checked.length := by
    intro t ht; rw [adjustPage_checked]; exact ht
  cases k with
  | arrowDown =>
    simp only [step] at h
    split at h <;> [skip; split at h] <;> simp_all <;>
      (subst h; exact hlen _ rfl)
  | arrowUp =>
    simp only [step] at h
    split at h <;> [skip; split at h] <;> simp_all <;>
      (subst h; exact hlen _ rfl)
  | arrowLeft =>
    simp only [step] at h
    split at h <;> (simp only [StepResult.next.injEq] at h; subst h; exact hlen _ rfl)
  | arrowRight =>
    simp only [step] at h
    split at h <;> (simp only [StepResult.next.injEq] at h; subst h; exact hlen _ rfl)
  | char c =>
    simp only [step] at h
    split at h
    · split at h
      · exact absurd h (by simp)
      · split at h
        · simp only [StepResult.next.injEq] at h
          subst h
          rw [adjustPage_checked]
          exact List.length_set ..
        · exact absurd h (by simp)
    · simp only [StepResult.next.injEq] at h; subst h; exact hlen _ rfl
  | escape => exact absurd h (by simp [step])
  | enter => exact absurd h (by simp [step])
  | backspace =>
    simp only [step] at h
    split at h <;> (simp only [StepResult.next.injEq] at h; subst h; exact hlen _ rfl)
  | other =>
    simp only [step] at h
    simp only [StepResult.next.injEq] at h; subst h; exact hlen _ rfl

theorem reaches_checked_length {cfg : Config} {s : LoopState}
    (hr : Reaches cfg s) : s.checked.length = cfg.defaults.length := by
  induction hr with
  | init => rfl
  | next _ hstep ih => rw [step_next_checked_length hstep, ih]

theorem filterMap_checked_cons_true (n : Nat) (rest : List (Nat × Bool)) :
    ((n, true) :: rest).filterMap (fun p => if p.2 then some p.1 else none) =
      n :: rest.filterMap (fun p => if p.2 then some p.1 else none) := by
  simp

theorem filterMap_checked_cons_false (n : Nat) (rest : List (Nat × Bool)) :
    ((n, false) :: rest).filterMap (fun p => if p.2 then some p.1 else none) =
      rest.filterMap (fun p => if p.2 then some p.1 else none) := by
  simp

theorem enumFrom_filterMap_mem (c : List Bool) (n i : Nat) :
    i ∈ (List.enumFrom n c).filterMap (fun p => if p.2 then some p.1 else none) ↔
      (n ≤ i ∧ i - n < c.length ∧ c.getD (i - n) false = true) := by
  induction c generalizing n with
  | nil => simp [List.enumFrom]
  | cons b bs ih =>
    have hcons : List.enumFrom n (b :: bs) = (n, b) :: List.enumFrom (n + 1) bs := rfl
    rw [hcons]
    cases b with
    | false =>
      rw [filterMap_checked_cons_false, ih]
      constructor
      · rintro ⟨h1, h2, h3⟩
        refine ⟨by omega, by simp; omega, ?_⟩
        have h4 : i - n = (i - (n + 1)) + 1 := by omega
        rw [h4, List.getD_cons_succ]
        exact h3
      · rintro ⟨h1, h2, h3⟩
        rcases Nat.eq_or_lt_of_le h1 with h | h
        · subst h; simp at h3
        · refine ⟨by omega, by simp at h2; omega, ?_⟩
          have h4 : i - n = (i - (n + 1)) + 1 := by omega
          rw [h4, List.getD_cons_succ] at h3
          exact h3
    | true =>
      rw [filterMap_checked_cons_true, List.mem_cons, ih]
      constructor
      · rintro (rfl | ⟨h1, h2, h3⟩)
        · simp
        · refine ⟨by omega, by simp; omega, ?_⟩
          have h4 : i - n = (i - (n + 1)) + 1 := by omega
          rw [h4, List.getD_cons_succ]
          exact h3
      · rintro ⟨h1, h2, h3⟩
        rcases Nat.eq_or_lt_of_le h1 with h | h
        · exact Or.inl h.symm
        · refine Or.inr ⟨by omega, by simp at h2; omega, ?_⟩
          have h4 : i - n = (i - (n + 1)) + 1 := by omega
          rw [h4, List.getD_cons_succ] at h3
          exact h3

theorem mem_checkedIndices (c : List Bool) (i : Nat) :
    i ∈ checkedIndices c ↔ (i < c.length ∧ c.getD i false = true) := by
  have h := enumFrom_filterMap_mem c 0 i
  simpa [checkedIndices, List.enum] using h

theorem enumFrom_filterMap_pairwise (c : List Bool) (n : Nat) :
    ((List.enumFrom n c).filterMap
      (fun p => if p.2 then some p.1 else none)).Pairwise (· < ·) := by
  induction c generalizing n with
  | nil => simp [List.enumFrom]
  | cons b bs ih =>
    have hcons : List.enumFrom n (b :: bs) = (n, b) :: List.enumFrom (n + 1) bs := rfl
    rw [hcons]
    cases b with
    | false => rw [filterMap_checked_cons_false]; exact ih (n + 1)
    | true =>
      rw [filterMap_checked_cons_true]
      refine List.Pairwise.cons ?_ (ih (n + 1))
      intro j hj
      have := (enumFrom_filterMap_mem bs (n + 1) j).1 hj
      omega

theorem checkedIndices_sorted (c : List Bool) :
    List.Sorted (· < ·) (checkedIndices c) :=
  enumFrom_filterMap_pairwise c 0

theorem checkedIndices_nodup (c : List Bool) : (checkedIndices c).Nodup :=
  (checkedIndices_sorted c).imp Nat.ne_of_lt

theorem startsWith_iff (l p : List Char) :
    startsWith l p = true ↔ ∃ rest, p ++ rest = l := by
  induction p generalizing l with
  | nil =>
    simp only [List.nil_append]
    constructor
    · intro _; exact ⟨l, rfl⟩
    · intro _; cases l <;> rfl
  | cons b bs ih =>
    cases l with
    | nil =>
      simp only [startsWith]
      constructor
      · intro h; exact absurd h (by simp)
      · rintro ⟨rest, h⟩; simp at h
    | cons a as =>
      simp only [startsWith, Bool.and_eq_true, beq_iff_eq, ih]
      constructor
      · rintro ⟨rfl, rest, rfl⟩; exact ⟨rest, rfl⟩
      · rintro ⟨rest, h⟩
        rw [List.cons_append] at h
        cases h
        exact ⟨rfl, rest, rfl⟩

theorem containsSub_iff (hay pat : List Char) :
    containsSub hay pat = true ↔ ∃ pre post, pre ++ pat ++ post = hay := by
  induction hay with
  | nil =>
    simp only [containsSub, List.isEmpty_iff]
    constructor
    · rintro rfl; exact ⟨[], [], rfl⟩
    · rintro ⟨pre, post, h⟩
      rcases List.append_eq_nil.1 h with ⟨h1, h2⟩
      exact (List.append_eq_nil.1 h1).2
  | cons h t ih =>
    simp only [containsSub, Bool.or_eq_true, startsWith_iff, ih]
    constructor
    · rintro (⟨rest, hr⟩ | ⟨pre, post, hp⟩)
      · exact ⟨[], rest, by simpa using hr⟩
      · exact ⟨h :: pre, post, by simp [hp]⟩
    · rintro ⟨pre, post, hp⟩
      cases pre with
      | nil => exact Or.inl ⟨post, by simpa using hp⟩
      | cons x xs =>
        rw [List.cons_append, List.cons_append] at hp
        cases hp
        exact Or.inr ⟨xs, post, rfl⟩

theorem matchesFilter_iff (q l : List Char) :
    matchesFilter q l = true ↔ ∃ pre post, pre ++ lowerStr q ++ post = lowerStr l := by
  unfold matchesFilter
  cases q with
  | nil =>
    simp only [List.length_nil, beq_self_eq_true, Bool.true_or, true_iff]
    exact ⟨[], lowerStr l, rfl⟩
  | cons c cs =>
    simp only [List.length_cons, Bool.or_eq_true, beq_iff_eq, containsSub_iff]
    constructor
    · rintro (h | h)
      · simp at h
      · exact h
    · exact Or.inr

theorem enumFrom_filter_map_mem (items : List (List Char)) (q : List Char)
    (n : Nat) (l : List Char) (i : Nat) :
    (l, i) ∈ ((List.enumFrom n items).filter
        (fun p => matchesFilter q p.2)).map (fun p => (p.2, p.1)) ↔
      (n ≤ i ∧ i - n < items.length ∧ items.getD (i - n) [] = l ∧
        matchesFilter q l = true) := by
  induction items generalizing n with
  | nil => simp [List.enumFrom]
  | cons x xs ih =>
    have hcons : List.enumFrom n (x :: xs) = (n, x) :: List.enumFrom (n + 1) xs := rfl
    rw [hcons, List.filter_cons]
    by_cases hm : matchesFilter q x = true
    · rw [if_pos (by simpa using hm), List.map_cons, List.mem_cons, ih]
      constructor
      · rintro (hp | ⟨h1, h2, h3, h4⟩)
        · cases hp
          exact ⟨Nat.le_refl n, by simp, by simp, hm⟩
        · refine ⟨by omega, by simp; omega, ?_, h4⟩
          have h5 : i - n = (i - (n + 1)) + 1 := by omega
          rw [h5, List.getD_cons_succ]
          exact h3
      · rintro ⟨h1, h2, h3, h4⟩
        rcases Nat.eq_or_lt_of_le h1 with h | h
        · subst h
          simp only [Nat.sub_self, List.getD_cons_zero] at h3
          exact Or.inl (by rw [h3])
        · refine Or.inr ⟨by omega, by simp at h2; omega, ?_, h4⟩
          have h5 : i - n = (i - (n + 1)) + 1 := by omega
          rw [h5, List.getD_cons_succ] at h3
          exact h3
    · rw [if_neg (by simpa using hm), ih]
      constructor
      · rintro ⟨h1, h2, h3, h4⟩
        refine ⟨by omega, by simp; omega, ?_, h4⟩
        have h5 : i - n = (i - (n + 1)) + 1 := by omega
        rw [h5, List.getD_cons_succ]
        exact h3
      · rintro ⟨h1, h2, h3, h4⟩
        rcases Nat.eq_or_lt_of_le h1 with h | h
        · subst h
          simp only [Nat.sub_self, List.getD_cons_zero] at h3
          exact absurd h4 (h3 ▸ hm)
        · refine ⟨by omega, by simp at h2; omega, ?_, h4⟩
          have h5 : i - n = (i - (n + 1)) + 1 := by omega
          rw [h5, List.getD_cons_succ] at h3
          exact h3

theorem mem_filteredIndexedItems (items : List (List Char)) (q : List Char)
    (l : List Char) (i : Nat) :
    (l, i) ∈ filteredIndexedItems items q ↔
      (i < items.length ∧ items.getD i [] = l ∧ matchesFilter q l = true) := by
  have h := enumFrom_filter_map_mem items q 0 l i
  simpa [filteredIndexedItems, List.enum] using h

theorem enumFrom_fst_lb (items : List (List Char)) (n : Nat) (p : Nat × List Char)
    (h : p ∈ List.enumFrom n items) : n ≤ p.1 := by
  induction items generalizing n with
  | nil => simp [List.enumFrom] at h
  | cons x xs ih =>
    have hcons : List.enumFrom n (x :: xs) = (n, x) :: List.enumFrom (n + 1) xs := rfl
    rw [hcons, List.mem_cons] at h
    rcases h with h | h
    · subst h; exact Nat.le_refl n
    · exact Nat.le_of_succ_le (ih (n + 1) h)

theorem enumFrom_filter_pairwise (items : List (List Char)) (q : List Char) (n : Nat) :
    ((List.enumFrom n items).filter
      (fun p => matchesFilter q p.2)).Pairwise (fun p1 p2 => p1.1 < p2.1) := by
  induction items generalizing n with
  | nil => simp [List.enumFrom]
  | cons x xs ih =>
    have hcons : List.enumFrom n (x :: xs) = (n, x) :: List.enumFrom (n + 1) xs := rfl
    rw [hcons, List.filter_cons]
    by_cases hm : matchesFilter q x = true
    · rw [if_pos (by simpa using hm)]
      refine List.Pairwise.cons ?_ (ih (n + 1))
      intro p hp
      have := enumFrom_fst_lb xs (n + 1) p (List.mem_of_mem_filter hp)
      omega
    · rw [if_neg (by simpa using hm)]
      exact ih (n + 1)

theorem filteredIndexedItems_indices_sorted (items : List (List Char)) (q : List Char) :
    ((filteredIndexedItems items q).map Prod.snd).Pairwise (· < ·) := by
  unfold filteredIndexedItems
  rw [List.map_map]
  have h := enumFrom_filter_pairwise items q 0
  exact ( List.pairwise_map).2 (by simpa [List.enum] using h)

theorem filteredIndexedItems_empty_query (items : List (List Char)) :
    filteredIndexedItems items [] = items.enum.map (fun p => (p.2, p.1)) := by
  unfold filteredIndexedItems
  congr 1
  apply List.filter_eq_self.2
  intro p _
  rfl

theorem step_down (cfg : Config) (s : LoopState) (L : Nat)
    (hL : (filteredIndexedItems cfg.items s.search).length = L)
    (hpos : 0 < L) (hsel : s.sel < L) (hcap : L ≤ usizeMax) :
    step cfg s Key.arrowDown =
      StepResult.next (adjustPage cfg { s with sel := (s.sel + 1) % L }) := by
  have h1 : ¬(s.sel = usizeMax) := by omega
  simp only [step, hL]
  rw [if_neg h1, if_neg (by omega)]

theorem stepMany_down (cfg : Config) (L : Nat) (hpos : 0 < L) (hcap : L ≤ usizeMax)
    (n : Nat) :
    ∀ s : LoopState, s.sel < L →
      (filteredIndexedItems cfg.items s.search).length = L →
      ∃ s1, stepMany cfg s (List.replicate n Key.arrowDown) = some s1 ∧
        s1.sel = (s.sel + n) % L ∧ s1.search = s.search ∧ s1.checked = s.checked := by
  induction n with
  | zero =>
    intro s hsel _
    exact ⟨s, rfl, (Nat.mod_eq_of_lt (by omega)).symm, rfl, rfl⟩
  | succ n ih =>
    intro s hsel hL
    have h2sel : (adjustPage cfg { s with sel := (s.sel + 1) % L }).sel =
        (s.sel + 1) % L := adjustPage_sel ..
    have h2search : (adjustPage cfg { s with sel := (s.sel + 1) % L }).search =
        s.search := adjustPage_search ..
    have h2checked : (adjustPage cfg { s with sel := (s.sel + 1) % L }).checked =
        s.checked := adjustPage_checked ..
    obtain ⟨s1, hs1, hsel1, hsearch1, hchecked1⟩ :=
      ih (adjustPage cfg { s with sel := (s.sel + 1) % L })
        (by rw [h2sel]; exact Nat.mod_lt _ hpos)
        (by rw [h2search]; exact hL)
    refine ⟨s1, ?_, ?_, by rw [hsearch1, h2search], by rw [hchecked1, h2checked]⟩
    · rw [List.replicate_succ]
      simp only [stepMany]
      rw [step_down cfg s L hL hpos hsel hcap]
      exact hs1
    · rw [hsel1, h2sel, Nat.mod_add_mod]
      congr 1
      omega

theorem capacityOf_pos (cfg : Config) (h : cfg.items ≠ []) :
    0 < capacityOf cfg := by
  unfold capacityOf
  split
  · split <;> omega
  · exact List.length_pos.2 h

theorem pagesOf_is_exact_ceiling (cfg : Config) (h : cfg.items ≠ []) :
    cfg.items.length ≤ pagesOf cfg * capacityOf cfg ∧
      (pagesOf cfg - 1) * capacityOf cfg < cfg.items.length := by
  have hc : 0 < capacityOf cfg := capacityOf_pos cfg h
  have hn : 0 < cfg.items.length := List.length_pos.2 h
  unfold pagesOf ceilNat
  have hd := Nat.div_add_mod (cfg.items.length + capacityOf cfg - 1) (capacityOf cfg)
  have hm := Nat.mod_lt (cfg.items.length + capacityOf cfg - 1) hc
  rw [Nat.mul_comm, Nat.sub_mul, one_mul,
    Nat.mul_comm ((cfg.items.length + capacityOf cfg - 1) / capacityOf cfg)
      (capacityOf cfg)]
  generalize hq : capacityOf cfg *
    ((cfg.items.length + capacityOf cfg - 1) / capacityOf cfg) = m at hd ⊢
  generalize hr : (cfg.items.length + capacityOf cfg - 1) % capacityOf cfg = r at hd hm
  omega

/-! Claim theorems. -/

/-- C1: the spec requires the cursor to be clamped into range and the
Space toggle to be skipped on an empty filtered view; the code instead
indexes `filtered_indexed_items[sel]` unconditionally.  With one item
`"a"`, typing `b` empties the filtered view and the following Space
panics (index out of bounds), so the interaction as coded violates the
claimed invariant. -/
theorem c1_space_panics_on_empty_filter :
    (interactOn cfgSingle [Key.char 'b', Key.char ' ']).1 = Outcome.panicked ∧
    filteredIndexedItems cfgSingle.items ['b'] = [] := by
  constructor <;> rfl

/-- C2 counterexample: the claim says the page count of every frame is
`ceil(totalVisible / capacity)` for the currently filtered length; but
`pages` is computed once from the full `items.len()`.  From the initial
state of a paged five-item list, typing `x` reaches a frame whose
filtered view has one item, where the code's page count is 3 while the
claimed formula gives 1. -/
theorem c2_pages_not_from_filtered_length :
    step cfgPaged (initState cfgPaged) (Key.char 'x') = StepResult.next statePagedX ∧
    (filteredIndexedItems cfgPaged.items statePagedX.search).length = 1 ∧
    pagesOf cfgPaged = 3 ∧
    pagesOf cfgPaged ≠
      ceilNat (filteredIndexedItems cfgPaged.items statePagedX.search).length
        (capacityOf cfgPaged) := by
  refine ⟨by decide, by decide, by decide, by decide⟩

/-- C2 amended: the page count is computed once, before the loop, from
the full configured item list: it is the exact ceiling of
`items.len() / capacity` (the least page count covering all items), and
when paging is disabled the capacity equals the full item count. -/
theorem c2_pages_from_full_item_list (cfg : Config) (h : cfg.items ≠ []) :
    0 < capacityOf cfg ∧
    (¬cfg.paged → capacityOf cfg = cfg.items.length) ∧
    cfg.items.length ≤ pagesOf cfg * capacityOf cfg ∧
    (pagesOf cfg - 1) * capacityOf cfg < cfg.items.length := by
  refine ⟨capacityOf_pos cfg h, ?_, pagesOf_is_exact_ceiling cfg h⟩
  intro hp
  unfold capacityOf
  rw [if_neg hp]

/-- Witness for C2: the paged five-item configuration. -/
theorem c2_pages_from_full_item_list_witness :
    0 < capacityOf cfgPaged ∧
    (¬cfgPaged.paged → capacityOf cfgPaged = cfgPaged.items.length) ∧
    cfgPaged.items.length ≤ pagesOf cfgPaged * capacityOf cfgPaged ∧
    (pagesOf cfgPaged - 1) * capacityOf cfgPaged < cfgPaged.items.length :=
  c2_pages_from_full_item_list cfgPaged (by decide)

/-- C3: from any reachable state of a configuration assembled by the
builder, Enter returns exactly the ascending list of original indices
whose checked flag is true: the run ends with that result, the list is
strictly sorted and duplicate-free, and membership is equivalent to the
index being valid for the configured items with its checked entry true. -/
theorem c3_enter_returns_checked_indices (ops : List BuildOp) (s : LoopState)
    (_hne : (buildConfig ops).items ≠ [])
    (hr : Reaches (buildConfig ops) s) :
    step (buildConfig ops) s Key.enter = StepResult.done (checkedIndices s.checked) ∧
    (∀ rest, (runFrames (buildConfig ops) s (Key.enter :: rest)).1 =
      Outcome.ok (checkedIndices s.checked)) ∧
    List.Sorted (· < ·) (checkedIndices s.checked) ∧
    (checkedIndices s.checked).Nodup ∧
    (∀ i, i ∈ checkedIndices s.checked ↔
      (i < (buildConfig ops).items.length ∧ s.checked.getD i false = true)) := by
  have hlen : s.checked.length = (buildConfig ops).items.length := by
    rw [ reaches_checked_length hr, buildConfig_defaults_length]
  refine ⟨rfl, fun _ => rfl, checkedIndices_sorted s.checked,
    checkedIndices_nodup s.checked, fun i => ?_⟩
  rw [mem_checkedIndices, hlen]

/-- Witness for C3: a single default-checked item, Enter at the initial
state returns `[0]`. -/
theorem c3_enter_returns_checked_indices_witness :
    step (buildConfig opsChecked1) (initState (buildConfig opsChecked1)) Key.enter =
      StepResult.done (checkedIndices (initState (buildConfig opsChecked1)).checked) ∧
    checkedIndices (initState (buildConfig opsChecked1)).checked = [0] :=
  ⟨(c3_enter_returns_checked_indices opsChecked1 _ (by decide) Reaches.init).1,
    by decide⟩

/-- C4: from any reachable state, whatever toggles, filter changes and
navigation happened, Escape returns the indices whose configured default
flag is true; the result mentions only `cfg.defaults`, not the edited
checked vector. -/
theorem c4_escape_returns_defaults (cfg : Config) (s : LoopState)
    (_hr : Reaches cfg s) :
    step cfg s Key.escape = StepResult.done (checkedIndices cfg.defaults) ∧
    (∀ rest, (runFrames cfg s (Key.escape :: rest)).1 =
      Outcome.ok (checkedIndices cfg.defaults)) ∧
    (∀ i, i ∈ checkedIndices cfg.defaults ↔
      (i < cfg.defaults.length ∧ cfg.defaults.getD i false = true)) :=
  ⟨rfl, fun _ => rfl, fun i => mem_checkedIndices cfg.defaults i⟩

/-- Witness for C4: three items with item 1 checked by default; Escape
at the initial state returns `[1]`. -/
theorem c4_escape_returns_defaults_witness :
    step cfgDefaults3 (initState cfgDefaults3) Key.escape =
      StepResult.done (checkedIndices cfgDefaults3.defaults) ∧
    checkedIndices cfgDefaults3.defaults = [1] :=
  ⟨(c4_escape_returns_defaults cfgDefaults3 (initState cfgDefaults3) Reaches.init).1,
    by decide⟩

/-- C5: the filtered view contains exactly the (label, original index)
pairs whose lowercased label contains the lowercased query as a
contiguous substring; the original indices appear in strictly increasing
order; and the empty query yields the identity enumeration of the items
in original order. -/
theorem c5_filter_engine_correct (items : List (List Char)) (q : List Char) :
    (∀ l i, (l, i) ∈ filteredIndexedItems items q ↔
      (i < items.length ∧ items.getD i [] = l ∧
        ∃ pre post, pre ++ lowerStr q ++ post = lowerStr l)) ∧
    ((filteredIndexedItems items q).map Prod.snd).Pairwise (· < ·) ∧
    (q = [] → filteredIndexedItems items q = items.enum.map (fun p => (p.2, p.1))) := by
  refine ⟨fun l i => ?_, filteredIndexedItems_indices_sorted items q, fun hq => ?_⟩
  · rw [mem_filteredIndexedItems, matchesFilter_iff]
  · subst hq
    exact filteredIndexedItems_empty_query items

/-- Witness for C5: the empty query over a one-item list is the identity
enumeration. -/
theorem c5_filter_engine_correct_witness :
    filteredIndexedItems [['a']] [] = [['a']].enum.map (fun p => (p.2, p.1)) :=
  (c5_filter_engine_correct [['a']] []).2.2 rfl

/-- C6: with zero configured items, `interact_on` returns the
empty-input error immediately: the outcome is the error and the render
trace is empty, for every key script, so the loop never starts. -/
theorem c6_empty_items_immediate_error (cfg : Config) (keys : List Key)
    (h : cfg.items = []) :
    interactOn cfg keys = (Outcome.emptyErr, []) := by
  unfold interactOn
  rw [if_pos (by simp [h])]

/-- Witness for C6: the empty configuration. -/
theorem c6_empty_items_immediate_error_witness :
    interactOn cfgEmpty [Key.enter] = (Outcome.emptyErr, []) :=
  c6_empty_items_immediate_error cfgEmpty [Key.enter] rfl

/-- C7: for every builder script and every reachable loop state, the
checked vector has exactly one entry per configured item. -/
theorem c7_checked_length_invariant (ops : List BuildOp) (s : LoopState)
    (hr : Reaches (buildConfig ops) s) :
    s.checked.length = (buildConfig ops).items.length := by
  rw [ reaches_checked_length hr, buildConfig_defaults_length]

/-- Witness for C7: two items added by one builder call, initial state. -/
theorem c7_checked_length_invariant_witness :
    (initState (buildConfig opsTwo)).checked.length =
      (buildConfig opsTwo).items.length :=
  c7_checked_length_invariant opsTwo (initState (buildConfig opsTwo)) Reaches.init

/-- C8: on a non-empty filtered view with a valid cursor, ArrowDown
moves the cursor to `(cursor + 1) mod len(filtered)` (and touches
neither filter text nor checked state), and `len(filtered)` consecutive
ArrowDown presses return the cursor, filter text and checked state to
their starting values. -/
theorem c8_down_mod_and_wraparound (cfg : Config) (s : LoopState)
    (hpos : 0 < (filteredIndexedItems cfg.items s.search).length)
    (hsel : s.sel < (filteredIndexedItems cfg.items s.search).length)
    (hcap : (filteredIndexedItems cfg.items s.search).length ≤ usizeMax) :
    (step cfg s Key.arrowDown = StepResult.next (adjustPage cfg
        { s with sel := (s.sel + 1) % (filteredIndexedItems cfg.items s.search).length }) ∧
      (adjustPage cfg
        { s with sel := (s.sel + 1) % (filteredIndexedItems cfg.items s.search).length }).sel =
        (s.sel + 1) % (filteredIndexedItems cfg.items s.search).length ∧
      (adjustPage cfg
        { s with sel := (s.sel + 1) % (filteredIndexedItems cfg.items s.search).length }).search =
        s.search ∧
      (adjustPage cfg
        { s with sel := (s.sel + 1) % (filteredIndexedItems cfg.items s.search).length }).checked =
        s.checked) ∧
    ((stepMany cfg s (List.replicate (filteredIndexedItems cfg.items s.search).length
        Key.arrowDown)).map LoopState.sel = some s.sel ∧
      (stepMany cfg s (List.replicate (filteredIndexedItems cfg.items s.search).length
        Key.arrowDown)).map LoopState.search = some s.search ∧
      (stepMany cfg s (List.replicate (filteredIndexedItems cfg.items s.search).length
        Key.arrowDown)).map LoopState.checked = some s.checked) := by
  obtain ⟨s1, hs1, hsel1, hsearch1, hchecked1⟩ :=
    stepMany_down cfg (filteredIndexedItems cfg.items s.search).length hpos hcap
      (filteredIndexedItems cfg.items s.search).length s hsel rfl
  have hwrap : s1.sel = s.sel := by
    rw [hsel1, Nat.add_mod_right, Nat.mod_eq_of_lt hsel]
  refine ⟨⟨step_down cfg s _ rfl hpos hsel hcap, adjustPage_sel .., adjustPage_search ..,
    adjustPage_checked ..⟩, ?_, ?_, ?_⟩
  · rw [hs1]; simpa using hwrap
  · rw [hs1]; simpa using hsearch1
  · rw [hs1]; simpa using hchecked1

/-- Witness for C8: three items, initial state, three ArrowDown presses. -/
theorem c8_down_mod_and_wraparound_witness :
    (stepMany cfgDefaults3 (initState cfgDefaults3)
      (List.replicate (filteredIndexedItems cfgDefaults3.items
        (initState cfgDefaults3).search).length Key.arrowDown)).map LoopState.sel =
      some (initState cfgDefaults3).sel :=
  (c8_down_mod_and_wraparound cfgDefaults3 (initState cfgDefaults3)
    (by decide) (by decide) (by decide)).2.1

/-- C9 counterexample: the space character is a printable character, but
`Key::Char(' ')` is matched by the Space arm before the generic
`Key::Char(x)` arm: at the initial state of a one-item list it toggles
the checked entry and leaves the filter text unchanged, instead of
appending `' '` to the filter text. -/
theorem c9_space_char_does_not_append :
    step cfgSingle (initState cfgSingle) (Key.char ' ') =
      StepResult.next { page := 0, sel := 0, checked := [true], search := [] } ∧
    step cfgSingle (initState cfgSingle) (Key.char ' ') ≠
      StepResult.next { initState cfgSingle with
        search := (initState cfgSingle).search ++ [' '] } := by
  refine ⟨by decide, by decide⟩

/-- C9 amended: for every printable character other than `' '`, the
transition appends the character to the filter text and leaves cursor,
checked vector and page unchanged whenever the cursor lies inside the
active page window; `Char(' ')` is handled by the Space row instead. -/
theorem c9_char_appends_to_filter (cfg : Config) (s : LoopState) (c : Char)
    (hc : c ≠ ' ')
    (hlo : s.page * capacityOf cfg ≤ s.sel)
    (hhi : s.sel < (s.page + 1) * capacityOf cfg) :
    step cfg s (Key.char c) = StepResult.next { s with search := s.search ++ [c] } := by
  simp only [step]
  rw [if_neg hc]
  congr 1
  exact adjustPage_in_window cfg { s with search := s.search ++ [c] } hlo hhi

/-- Witness for C9: typing `z` at the initial state of the one-item
configuration appends `z` to the filter text. -/
theorem c9_char_appends_to_filter_witness :
    step cfgSingle (initState cfgSingle) (Key.char 'z') =
      StepResult.next { initState cfgSingle with
        search := (initState cfgSingle).search ++ ['z'] } :=
  c9_char_appends_to_filter cfgSingle (initState cfgSingle) 'z'
    (by decide) (by decide) (by decide)

/-- C10: the `defaults` builder call keeps the items and replaces the
stored defaults by the supplied flags truncated to the current item
count and padded with `false`; with no items yet, every supplied flag is
discarded. -/
theorem c10_defaults_pad_truncate (cfg : Config) (val : List Bool) :
    (applyOp cfg (BuildOp.defaults val)).items = cfg.items ∧
    (applyOp cfg (BuildOp.defaults val)).defaults =
      val.take cfg.items.length ++ List.replicate (cfg.items.length - val.length) false ∧
    (cfg.items = [] → (applyOp cfg (BuildOp.defaults val)).defaults = []) := by
  refine ⟨rfl, padTake_eq val cfg.items.length, fun h => ?_⟩
  show padTake val cfg.items.length = []
  rw [padTake_eq, h]
  simp

/-- Witness for C10: two flags supplied to the empty configuration are
all discarded. -/
theorem c10_defaults_pad_truncate_witness :
    (applyOp cfgEmpty (BuildOp.defaults [true, true])).defaults = [] :=
  (c10_defaults_pad_truncate cfgEmpty [true, true]).2.2 rfl

end Dialoguer
